import Mathlib

/-!
Verification of the mppfc library (multi-processing persistent function cache)
against its natural-language specification.

The development shallowly embeds the relevant parts of `mppfc/cache.py` and
`mppfc/mppfc.py`:
  * the hash-to-path splitting `CacheFileBased.hash_bytes_to_3_hex`,
  * the `num_proc` argument parsing `parse_num_proc`,
  * argument binding and fingerprint hashing `CacheFileBased.param_hash_bytes`,
  * the synchronous cache wrapper `CacheFileBased.__call__` and `_write_item`,
  * the pool-mode wrapper `MultiProcCachedFunction.__call__`, the worker loop
    `_runner`, and the lifecycle operations `join` / `terminate`.

Python byte values are `Nat` below 256, Python ints are `Int`, Python floats
are modelled by their exact value as `ℚ`, raised exceptions are `Except`
errors, and the filesystem is an association list from paths to stored values.
-/

namespace Mppfc

/-! ### Hash splitting (`cache.py`: `hex_alphabet`, `four_bit_int_to_hex`,
`hash_bytes_to_3_hex`) -/

/-- Embedding of `hex_alphabet = "0123456789abcdef"` from `cache.py`,
as the character sequence of that string. -/
def hex_alphabet : List Char :=
  "0123456789abcdef".data

/-- Embedding of `CacheFileBased.four_bit_int_to_hex`: convert `0 <= i < 16`
to a single hex digit, raising `ValueError` otherwise.  Python ints can be
negative; the argument is taken as `Int` and the guard `(i < 0) or (i >= 16)`
is kept verbatim. -/
def four_bit_int_to_hex (i : Int) : Except String String :=
  if i < 0 ∨ 16 ≤ i then
    .error "0 <= i < 16 needs to hold!"
  else
    .ok (String.mk [hex_alphabet.getD i.toNat 'x'])

/-- Embedding of Python `bytes.hex()`: each byte yields two lowercase hex
digits, high nibble first. -/
def bytes_hex (bs : List Nat) : String :=
  String.mk (bs.flatMap fun b => [hex_alphabet.getD (b / 16) 'x', hex_alphabet.getD (b % 16) 'x'])

/-- Embedding of `CacheFileBased.hash_bytes_to_3_hex`.  Indexing
`hash_bytes[0]` and `hash_bytes[1]` raises `IndexError` on a too-short input,
hence the `Except`; the slices `[2:3]`, `[3:4]` and `[4:]` never raise. -/
def hash_bytes_to_3_hex (hash_bytes : List Nat) : Except String (String × String × String) :=
  match hash_bytes with
  | b :: c :: rest => do
    let b1 : Nat := (b &&& 0b11000000) >>> 6
    let b2 : Nat := (b &&& 0b00110000) >>> 4
    let b3 : Nat := b &&& 0b00001111
    let c1 : Nat := (c &&& 0b11110000) >>> 4
    let c2 : Nat := c &&& 0b00001111
    let h1 ← four_bit_int_to_hex b1
    let h2 ← four_bit_int_to_hex c1
    let s1 := h1 ++ h2 ++ bytes_hex (rest.take 1)
    let h3 ← four_bit_int_to_hex b2
    let h4 ← four_bit_int_to_hex c2
    let s2 := h3 ++ h4 ++ bytes_hex ((rest.drop 1).take 1)
    let h5 ← four_bit_int_to_hex b3
    let s3 := h5 ++ bytes_hex (rest.drop 2)
    return (s1, s2, s3)
  | _ => .error "IndexError"

/-- Single hex digit for a nibble value, as used by the specification to
describe the packing (`hex(...)` in the spec). -/
def hexDigit (i : Nat) : Char :=
  hex_alphabet.getD i 'x'

/-- Packing of the first path segment as the claim words it: the top 2 bits of
byte 0, then the top 4 bits of byte 1, then byte 2. -/
def claim_s1 (b0 b1 b2 : Nat) : String :=
  String.mk [hexDigit (b0 >>> 6), hexDigit (b1 >>> 4)] ++ bytes_hex [b2]

/-- Packing of the second path segment as the claim words it: bits 5:4 of
byte 0, then the low 4 bits of byte 1, then byte 3. -/
def claim_s2 (b0 b1 b3 : Nat) : String :=
  String.mk [hexDigit ((b0 >>> 4) % 4), hexDigit (b1 % 16)] ++ bytes_hex [b3]

/-- Packing of the third path segment as the claim words it: the low 4 bits of
byte 0 followed by bytes 4..31. -/
def claim_s3 (b0 : Nat) (tail : List Nat) : String :=
  String.mk [hexDigit (b0 % 16)] ++ bytes_hex tail

/-- The first concrete hash from the claim: `ff ff ff ff ab 00...`. -/
def H_ff : List Nat :=
  [0xff, 0xff, 0xff, 0xff, 0xab] ++ List.replicate 27 0

/-- The second concrete hash from the claim: `63 12 11 22 33 00...`. -/
def H_63 : List Nat :=
  [0x63, 0x12, 0x11, 0x22, 0x33] ++ List.replicate 27 0

/-- Byte sequences: every entry is a value below 256. -/
def bytes_ok (H : List Nat) : Prop :=
  ∀ x ∈ H, x < 256

instance (H : List Nat) : Decidable (bytes_ok H) :=
  List.decidableBAll _ H

/-! ### `num_proc` parsing (`mppfc.py`: `parse_num_proc`) -/

/-- A Python value passed as `num_proc`: a string, a float (modelled by its
exact rational value), an int, or a value of any other type. -/
inductive PyNum where
  | pyStr : String → PyNum
  | pyFloat : ℚ → PyNum
  | pyInt : Int → PyNum
  | pyOther : PyNum
deriving DecidableEq

/-- Python `int(x)` on a float value: truncation toward zero. -/
def py_int_of_float (q : ℚ) : Int :=
  if 0 ≤ q then ⌊q⌋ else ⌈q⌉

/-- Embedding of `parse_num_proc` from `mppfc.py`.  `n_cpu` stands for
`mp.cpu_count()`.  The `num_proc == "all"` comparison can only succeed for a
string; floats and ints then dispatch on `isinstance`, and any other value
falls through to the final `ValueError`. -/
def parse_num_proc (n_cpu : Nat) : PyNum → Except String Int
  | .pyStr s =>
    if s = "all" then .ok n_cpu
    else .error "num_proc is of invalid type"
  | .pyFloat q =>
    if 0 < q ∧ q ≤ 1 then .ok (py_int_of_float (q * n_cpu))
    else .error "num_proc (float) out of range (0,1]"
  | .pyInt k =>
    if 0 < k then
      if k ≤ (n_cpu : Int) then .ok k
      else .error "num_proc (positive integer) must not be larger than the number of available cores"
    else
      if -(n_cpu : Int) < k then .ok ((n_cpu : Int) + k)
      else .error "num_proc (negative integer) must not be smaller than minus the number of available cores"
  | .pyOther => .error "num_proc is of invalid type"

/-! ### Argument binding and fingerprint hash (`cache.py`:
`CacheFileBased.param_hash_bytes`; `mppfc.py`: hash computation in
`MultiProcCachedFunction.__call__`) -/

/-- One declared parameter of the user function: a name and an optional
default value. -/
structure PyParam (V : Type) where
  name : String
  default : Option V
deriving DecidableEq

/-- Embedding of `inspect.Signature.bind` followed by `apply_defaults`: bind
positional arguments to the leading parameters, bind keyword arguments by
name, materialize default values, and keep the declaration order of the
signature in the resulting mapping.  Binding errors (too many positionals,
unexpected or duplicate keyword, missing required argument) raise
`TypeError`. -/
def bind_apply_defaults {V : Type} :
    List (PyParam V) → List V → List (String × V) → Except String (List (String × V))
  | [], [], [] => .ok []
  | [], [], _ :: _ => .error "got an unexpected keyword argument"
  | [], _ :: _, _ => .error "too many positional arguments"
  | p :: ps, a :: rest, kwargs =>
    if (kwargs.lookup p.name).isSome then .error "got multiple values for argument"
    else (bind_apply_defaults ps rest kwargs).map (fun m => (p.name, a) :: m)
  | p :: ps, [], kwargs =>
    match kwargs.lookup p.name with
    | some v =>
      (bind_apply_defaults ps [] (kwargs.filter (fun kv => kv.1 != p.name))).map
        (fun m => (p.name, v) :: m)
    | none =>
      match p.default with
      | some d => (bind_apply_defaults ps [] kwargs).map (fun m => (p.name, d) :: m)
      | none => .error "missing a required argument"

/-- Lexicographic comparison of character lists (Python string comparison by
code point). -/
def chars_le : List Char → List Char → Bool
  | [], _ => true
  | _ :: _, [] => false
  | a :: as_, b :: bs => if a < b then true else if b < a then false else chars_le as_ bs

/-- Python string comparison `a <= b`. -/
def str_le (a b : String) : Bool :=
  chars_le a.data b.data

/-- Insertion step for sorting (name, value) pairs by name. -/
def insert_by_name {V : Type} (x : String × V) : List (String × V) → List (String × V)
  | [] => [x]
  | y :: ys => if str_le x.1 y.1 then x :: y :: ys else y :: insert_by_name x ys

/-- Sort a sequence of (name, value) pairs by name (insertion sort).  This is
what `sorted(ba.arguments.items(), key=lambda item: item[0])` computes in
`MultiProcCachedFunction.__call__`. -/
def sort_by_name {V : Type} (m : List (String × V)) : List (String × V) :=
  m.foldr insert_by_name []

/-- Modelled from the spec: the external canonical serializer
(`binfootprint.dump`, not part of this repository).  The spec states that a
mapping is emitted as a sequence of (name, value) pairs sorted by name before
serialization; `ser` is the (arbitrary) canonical encoder for pair
sequences. -/
def binfootprint_dump_mapping {V : Type} (ser : List (String × V) → List Nat)
    (m : List (String × V)) : List Nat :=
  ser (sort_by_name m)

/-- Embedding of `CacheFileBased.param_hash_bytes`: bind the call to the
signature, apply defaults, serialize the resulting mapping with
`binfootprint.dump` and hash with SHA-256 (`sha` stands for the external
SHA-256 digest). -/
def param_hash_bytes {V : Type} (sha : List Nat → List Nat)
    (ser : List (String × V) → List Nat) (sig : List (PyParam V))
    (args : List V) (kwargs : List (String × V)) : Except String (List Nat) :=
  (bind_apply_defaults sig args kwargs).map
    (fun m => sha (binfootprint_dump_mapping ser m))

/-- The fingerprint as the claim words it: SHA-256 of the canonical
serialization of the bound named-argument mapping with defaults materialized,
emitted as a sequence of (name, value) pairs sorted by parameter name. -/
def fingerprint_spec {V : Type} (sha : List Nat → List Nat)
    (ser : List (String × V) → List Nat) (sig : List (PyParam V))
    (args : List V) (kwargs : List (String × V)) : Except String (List Nat) :=
  (bind_apply_defaults sig args kwargs).map (fun m => sha (ser (sort_by_name m)))

/-- Embedding of the hash computation in `MultiProcCachedFunction.__call__`:
bind, apply defaults, sort the items by name and hash the sorted tuple with
`bf.hash_hex_from_object` (SHA-256 of the binfootprint dump). -/
def mppfc_arg_hash {V : Type} (sha : List Nat → List Nat)
    (ser : List (String × V) → List Nat) (sig : List (PyParam V))
    (args : List V) (kwargs : List (String × V)) : Except String (List Nat) :=
  (bind_apply_defaults sig args kwargs).map (fun m => sha (ser (sort_by_name m)))

/-! ### Synchronous cache wrapper (`cache.py`: `CacheFileBased._write_item`,
`CacheFileBased.__call__`) -/

/-- The `_cache_flag` values recognized by `CacheFileBased.__call__`. -/
inductive CacheFlag where
  | no_cache
  | update
  | has_key
  | cache_only
deriving DecidableEq

/-- The filesystem under the cache directory: an association of file paths to
the stored (pickled) values. -/
abbrev FS (V : Type) := List (String × V)

/-- Look up the file at path `p` (file contents, or `none` if absent). -/
def fs_get {V : Type} (fs : FS V) (p : String) : Option V :=
  fs.lookup p

/-- Write value `v` to the file at path `p`, replacing an existing file. -/
def fs_set {V : Type} (fs : FS V) (p : String) (v : V) : FS V :=
  (p, v) :: fs.filter (fun kv => kv.1 != p)

/-- Remove the file at path `p` (`os.remove`). -/
def fs_remove {V : Type} (fs : FS V) (p : String) : FS V :=
  fs.filter (fun kv => kv.1 != p)

/-- Errors raised by the synchronous cache wrapper. -/
inductive CacheErr where
  | keyError
  | ioError
deriving DecidableEq

/-- Return value of a wrapped call: either a cached/computed value, or the
boolean answer of the `has_key` probe. -/
inductive CallRV (V : Type) where
  | val : V → CallRV V
  | bool : Bool → CallRV V
deriving DecidableEq

/-- Embedding of `CacheFileBased._write_item`.  A failure of the dump
(`write_ok = false` injects one) removes the incompletely written file and
re-raises, so on failure no file remains at `f_name`; on success the file
holds `item`. -/
def write_item {V : Type} (write_ok : Bool) (fs : FS V) (f_name : String) (item : V) :
    Option CacheErr × FS V :=
  if write_ok then (none, fs_set fs f_name item)
  else (some .ioError, fs_remove fs f_name)

/-- Embedding of `CacheFileBased.__call__` in sync mode.  The deterministic
user function is modelled by its return value `r`; `f_name` is the path
computed by `get_f_name` for the call.  The result is the returned value or
raised error, the filesystem afterwards, and the number of times the user
function was invoked during the call.  The source guards the compute-and-store
branch by `(not item_exists) or (_cache_flag == "update")`; the `update` test
is split off first below, which is equivalent. -/
def cache_call {V : Type} (r : V) (f_name : String) (flag : Option CacheFlag)
    (write_ok : Bool) (fs : FS V) : Except CacheErr (CallRV V) × FS V × Nat :=
  if flag = some .no_cache then
    (.ok (.val r), fs, 1)
  else if flag = some .has_key then
    (.ok (.bool (fs_get fs f_name).isSome), fs, 0)
  else if flag = some .cache_only then
    match fs_get fs f_name with
    | none => (.error .keyError, fs, 0)
    | some v => (.ok (.val v), fs, 0)
  else if flag = some .update then
    match write_item write_ok fs f_name r with
    | (none, fs1) => (.ok (.val r), fs1, 1)
    | (some e, fs1) => (.error e, fs1, 1)
  else
    match fs_get fs f_name with
    | none =>
      match write_item write_ok fs f_name r with
      | (none, fs1) => (.ok (.val r), fs1, 1)
      | (some e, fs1) => (.error e, fs1, 1)
    | some v => (.ok (.val v), fs, 0)

/-! ### Pool-mode wrapper (`mppfc.py`: `MultiProcCachedFunction.__call__`,
`_runner`, `join`, `terminate`) -/

/-- Errors raised by the pool-mode wrapper. -/
inductive PoolErr where
  | badCall
  | cacheErr : CacheErr → PoolErr
  | execFailure : String → String → PoolErr
deriving DecidableEq

/-- The shared state of a `MultiProcCachedFunction` instance: the `_mp` flag,
the stop event, the pending hash set (`kwargs_hash_set`), the FIFO queue
(`kwargs_q`) of (bound arguments, hash) entries, the issued counter
(`kwargs_cnt`), the failure map (`erroneous_call_dict`, hash to exception and
formatted traceback), the cache filesystem, and the subprocess registry
(`procs`; the flag of an entry records whether the terminate signal was
delivered to that worker). -/
structure PoolState (V : Type) where
  mp : Bool
  stop : Bool
  pending : List String
  q : List (List (String × V) × String)
  cnt : Nat
  errs : List (String × String × String)
  fs : FS V
  procs : List Bool
deriving DecidableEq

/-- Embedding of `MultiProcCachedFunction.join` with `timeout=None`: set the
stop event, mark multiprocessing inactive, and wait for every subprocess.
Because the stop event is set (and, on the `terminate` path, the terminate
signal was already delivered), every worker exits its loop, all joins succeed
and the process registry is cleared. -/
def pool_join {V : Type} (s : PoolState V) : PoolState V :=
  { s with stop := true, mp := false, procs := [] }

/-- The first half of `MultiProcCachedFunction.terminate`: set the stop event,
mark multiprocessing inactive and call `p.terminate()` on every registered
subprocess. -/
def deliver_terminate {V : Type} (s : PoolState V) : PoolState V :=
  { s with stop := true, mp := false, procs := s.procs.map (fun _ => true) }

/-- Embedding of `MultiProcCachedFunction.terminate`: deliver the terminate
signal to every worker, then `join`. -/
def pool_terminate {V : Type} (s : PoolState V) : PoolState V :=
  pool_join (deliver_terminate s)

/-- Embedding of `MultiProcCachedFunction.__call__`.  Parameters: `r` is the
value of the deterministic user function for this call, `write_ok` injects
write failures in the sync fallback, `cflag` is `some fv` when the reserved
keyword `_cache_flag` is present in `kwargs` (with value `fv`, where `none`
stands for Python `None`), `f_name` is the cache path of the call, `h` the
argument hash (`bf.hash_hex_from_object` of the sorted bound arguments) and
`ba` the bound arguments.  If `_mp` is unset the call falls back to the plain
cache wrapper.  Otherwise a present `_cache_flag` terminates the pool and
raises `ValueError`; else the wrapper first tries `_cache_flag="cache_only"`
catching `KeyError`, then consults the failure map, then the pending set, and
finally enqueues. -/
def mp_call {V : Type} (r : V) (write_ok : Bool) (cflag : Option (Option CacheFlag))
    (f_name h : String) (ba : List (String × V)) (s : PoolState V) :
    Except PoolErr (Option (CallRV V)) × PoolState V :=
  if s.mp = false then
    match cache_call r f_name cflag.join write_ok s.fs with
    | (.ok rv, fs1, _) => (.ok (some rv), { s with fs := fs1 })
    | (.error e, fs1, _) => (.error (.cacheErr e), { s with fs := fs1 })
  else if cflag.isSome then
    (.error .badCall, pool_terminate s)
  else
    match cache_call r f_name (some .cache_only) write_ok s.fs with
    | (.ok rv, _, _) => (.ok (some rv), s)
    | (.error _, _, _) =>
      match s.errs.lookup h with
      | some (ex, tb) => (.error (.execFailure ex tb), s)
      | none =>
        if h ∈ s.pending then (.ok none, s)
        else (.ok none,
          { s with q := s.q ++ [(ba, h)], cnt := s.cnt + 1, pending := h :: s.pending })

/-- Behavior of one invocation of the user function inside a worker: a
successful return value, an exception together with its formatted traceback
(`traceback.format_exc()`), or an `InterruptedError` delivered by the
terminate-signal handler. -/
inductive FncOutcome (V : Type) where
  | ok : V → FncOutcome V
  | exc : String → String → FncOutcome V
  | interrupted
deriving DecidableEq

/-- Embedding of one loop iteration of `MultiProcCachedFunction._runner` in
which an entry is available: pop the front entry `(kwargs, arg_hash)` of the
FIFO and run `cached_fnc(**kwargs)` (default mode: load if cached, otherwise
compute and store).  On an exception the worker stores the exception and its
formatted traceback in the failure map keyed by the hash; on
`InterruptedError` nothing is recorded; in every case the hash is removed
from the pending set.  `f_name` is the cache path of the popped arguments and
`outcome` the behavior of the user function. -/
def worker_step {V : Type} (outcome : FncOutcome V) (f_name : String) (s : PoolState V) :
    PoolState V :=
  match s.q with
  | [] => s
  | (_, h) :: rest =>
    match outcome with
    | .ok v =>
      let fs1 := if (fs_get s.fs f_name).isSome then s.fs else fs_set s.fs f_name v
      { s with q := rest, fs := fs1, pending := s.pending.filter (fun x => x != h) }
    | .exc ex tb =>
      { s with q := rest, errs := (h, ex, tb) :: s.errs,
               pending := s.pending.filter (fun x => x != h) }
    | .interrupted =>
      { s with q := rest, pending := s.pending.filter (fun x => x != h) }

/-- State reached after `n` further pool-mode calls with the same arguments
(the result of each call is discarded, only the state is threaded). -/
def call_iterate {V : Type} (r : V) (write_ok : Bool) (f_name h : String)
    (ba : List (String × V)) : Nat → PoolState V → PoolState V
  | 0, s => s
  | n + 1, s => call_iterate r write_ok f_name h ba n (mp_call r write_ok none f_name h ba s).2

/-- Number of entries for hash `h` in the waiting queue. -/
def q_count {V : Type} (s : PoolState V) (h : String) : Nat :=
  (s.q.filter (fun e => e.2 == h)).length

/-! ### Wrap-time check (`cache.py`: `CacheFileBased.__init__`) -/

/-- Embedding of the wrap-time check in `CacheFileBased.__init__`: a function
whose short name `__name__` differs from its fully qualified name
`__qualname__` (a bound method) is rejected with `TypeError`; otherwise
construction proceeds. -/
def cache_init_check (name qualname : String) : Except String Unit :=
  if name ≠ qualname then
    .error "The function to cache must not be a bounded method"
  else
    .ok ()

/-! ### Helper lemmas on the filesystem model -/

theorem fs_get_set {V : Type} (fs : FS V) (p : String) (v : V) :
    fs_get (fs_set fs p v) p = some v := by
  simp [fs_get, fs_set, List.lookup]

theorem fs_get_remove {V : Type} (fs : FS V) (p : String) :
    fs_get (fs_remove fs p) p = none := by
  induction fs with
  | nil => rfl
  | cons kv l ih =>
    obtain ⟨k, v⟩ := kv
    by_cases h : k = p
    · have hdrop : ((k, v).1 != p) = false := by simp [h]
      simp only [fs_remove, List.filter_cons, hdrop, Bool.false_eq_true, if_false]
      exact ih
    · have hkeep : ((k, v).1 != p) = true := by simp [h]
      have hb : (p == k) = false := by simp [Ne.symm h]
      simp only [fs_remove, List.filter_cons, hkeep, if_true, fs_get, List.lookup, hb]
      exact ih

/-! ### Helper lemmas on the hash splitting -/

theorem str_mk_append (a b : List Char) : String.mk a ++ String.mk b = String.mk (a ++ b) :=
  rfl

theorem bytes_hex_nil : bytes_hex [] = String.mk [] :=
  rfl

theorem bytes_hex_cons (b : Nat) (l : List Nat) :
    bytes_hex (b :: l) =
      String.mk [hex_alphabet.getD (b / 16) 'x', hex_alphabet.getD (b % 16) 'x'] ++ bytes_hex l := by
  simp [bytes_hex, str_mk_append]

theorem hexpairs_length (bs : List Nat) :
    (bs.flatMap fun b =>
      [hex_alphabet.getD (b / 16) 'x', hex_alphabet.getD (b % 16) 'x']).length = 2 * bs.length := by
  induction bs with
  | nil => rfl
  | cons b l ih =>
    simp only [List.flatMap_cons, List.length_append, List.length_cons, List.length_nil, ih]
    omega

theorem bytes_hex_length (bs : List Nat) : (bytes_hex bs).length = 2 * bs.length := by
  simpa [bytes_hex, String.length] using hexpairs_length bs

set_option maxRecDepth 8192

theorem top2_bits (b : Fin 256) : (b.val &&& 192) >>> 6 = b.val >>> 6 := by
  revert b; decide

theorem mid2_bits (b : Fin 256) : (b.val &&& 48) >>> 4 = (b.val >>> 4) % 4 := by
  revert b; decide

theorem low4_bits (b : Fin 256) : b.val &&& 15 = b.val % 16 := by
  revert b; decide

theorem top4_bits (b : Fin 256) : (b.val &&& 240) >>> 4 = b.val >>> 4 := by
  revert b; decide

theorem top2_lt (b : Fin 256) : (b.val &&& 192) >>> 6 < 16 := by
  revert b; decide

theorem mid2_lt (b : Fin 256) : (b.val &&& 48) >>> 4 < 16 := by
  revert b; decide

theorem low4_lt (b : Fin 256) : b.val &&& 15 < 16 := by
  revert b; decide

theorem top4_lt (b : Fin 256) : (b.val &&& 240) >>> 4 < 16 := by
  revert b; decide

theorem four_bit_ok (n : Nat) (h : n < 16) :
    four_bit_int_to_hex (n : Int) = .ok (String.mk [hexDigit n]) := by
  simp only [four_bit_int_to_hex, hexDigit]
  rw [if_neg, Int.toNat_natCast]
  push_neg
  exact ⟨Int.natCast_nonneg n, by exact_mod_cast h⟩

/-! ### Claim theorems -/

/-- C1 counterexample: at the concrete 32-byte hash `ff ff ff ff ab 00...`
from the claim, the third segment is
`"fab"` followed by 54 zeros — 57 hex characters, not the 55 the claim
states. -/
theorem hash_path_55_counterexample :
    hash_bytes_to_3_hex H_ff =
      .ok ("3fff", "3fff", "fab" ++ String.mk (List.replicate 54 '0')) ∧
    ("fab" ++ String.mk (List.replicate 54 '0')).length ≠ 55 := by
  constructor
  · rfl
  · decide

/-- C1 (amended): for every 32-byte hash `H`, `hash_bytes_to_3_hex` produces
three hex segments of lengths 4, 4 and 57 (not 55), packed bit-exactly as:
`s1` = the top 2 bits of byte 0, then the top 4 bits of byte 1, then byte 2;
`s2` = bits 5:4 of byte 0, then the low 4 bits of byte 1, then byte 3;
`s3` = the low 4 bits of byte 0 followed by bytes 4..31. -/
theorem hash_path_encoding (H : List Nat) (hlen : H.length = 32) (hB : bytes_ok H) :
    hash_bytes_to_3_hex H =
      .ok (claim_s1 (H.getD 0 0) (H.getD 1 0) (H.getD 2 0),
           claim_s2 (H.getD 0 0) (H.getD 1 0) (H.getD 3 0),
           claim_s3 (H.getD 0 0) (H.drop 4)) ∧
    (claim_s1 (H.getD 0 0) (H.getD 1 0) (H.getD 2 0)).length = 4 ∧
    (claim_s2 (H.getD 0 0) (H.getD 1 0) (H.getD 3 0)).length = 4 ∧
    (claim_s3 (H.getD 0 0) (H.drop 4)).length = 57 := by
  rcases H with _ | ⟨b, H⟩
  · simp at hlen
  rcases H with _ | ⟨c, H⟩
  · simp at hlen
  rcases H with _ | ⟨d, H⟩
  · simp at hlen
  rcases H with _ | ⟨e, tail⟩
  · simp at hlen
  have htail : tail.length = 28 := by simp at hlen; omega
  have hb : b < 256 := hB b (by simp)
  have hc : c < 256 := hB c (by simp)
  have n1 : (b &&& 192) >>> 6 = b >>> 6 := top2_bits ⟨b, hb⟩
  have n2 : (c &&& 240) >>> 4 = c >>> 4 := top4_bits ⟨c, hc⟩
  have n3 : (b &&& 48) >>> 4 = (b >>> 4) % 4 := mid2_bits ⟨b, hb⟩
  have n4 : c &&& 15 = c % 16 := low4_bits ⟨c, hc⟩
  have n5 : b &&& 15 = b % 16 := low4_bits ⟨b, hb⟩
  have t1 : b >>> 6 < 16 := n1 ▸ top2_lt ⟨b, hb⟩
  have t2 : c >>> 4 < 16 := n2 ▸ top4_lt ⟨c, hc⟩
  have t3 : (b >>> 4) % 4 < 16 := n3 ▸ mid2_lt ⟨b, hb⟩
  have t4 : c % 16 < 16 := n4 ▸ low4_lt ⟨c, hc⟩
  have t5 : b % 16 < 16 := n5 ▸ low4_lt ⟨b, hb⟩
  refine ⟨?_, ?_, ?_, ?_⟩
  · simp only [hash_bytes_to_3_hex, n1, n2, n3, n4, n5]
    rw [four_bit_ok _ t1, four_bit_ok _ t2, four_bit_ok _ t3, four_bit_ok _ t4,
      four_bit_ok _ t5]
    rfl
  · rfl
  · rfl
  · rw [show claim_s3 ((b :: c :: d :: e :: tail).getD 0 0) ((b :: c :: d :: e :: tail).drop 4)
        = String.mk [hexDigit (b % 16)] ++ bytes_hex tail from rfl]
    rw [String.length_append, bytes_hex_length, htail, String.length_mk]
    simp

/-- Witness for C1 (amended) at the second concrete hash of the claim,
`63 12 11 22 33 00...`, whose segments are `"1111"`, `"2222"` and `"333"`
followed by 54 zeros. -/
theorem hash_path_encoding_witness :
    (H_63.length = 32 ∧ bytes_ok H_63) ∧
    hash_bytes_to_3_hex H_63 =
      .ok ("1111", "2222", "333" ++ String.mk (List.replicate 54 '0')) ∧
    ("1111" : String).length = 4 ∧
    ("2222" : String).length = 4 ∧
    ("333" ++ String.mk (List.replicate 54 '0')).length = 57 := by
  have h := hash_path_encoding H_63 rfl (by decide)
  exact ⟨⟨rfl, by decide⟩, h.1.trans (by rfl), by decide, by decide, by decide⟩

/-- C8: wrapping a function whose fully qualified name differs from its short
name (an instance/bound method) fails at wrap time with `Unsupported`
(`TypeError`); wrapping a free function (qualified name equal to the short
name) succeeds. -/
theorem wrap_rejects_bound_methods (name qualname : String) :
    (name ≠ qualname →
      cache_init_check name qualname =
        .error "The function to cache must not be a bounded method") ∧
    (name = qualname → cache_init_check name qualname = .ok ()) := by
  constructor <;> intro h <;> simp [cache_init_check, h]

/-- Witness for C8 at the concrete names "f" (short) and "A.f" (qualified). -/
theorem wrap_rejects_bound_methods_witness :
    ("f" ≠ "A.f" ∧
      cache_init_check "f" "A.f" =
        .error "The function to cache must not be a bounded method") ∧
    ("f" = "f" ∧ cache_init_check "f" "f" = .ok ()) :=
  ⟨⟨by decide, (wrap_rejects_bound_methods "f" "A.f").1 (by decide)⟩,
   ⟨rfl, (wrap_rejects_bound_methods "f" "f").2 rfl⟩⟩

/-- C2: with `C` available cores, `parse_num_proc` returns `C` for the string
"all"; returns `floor(f * C)` for every float `f` with `0 < f <= 1` and fails
with `BadCall` (`ValueError`) for every other float; returns `k` for every int
`k` with `0 < k <= C` and fails for `k > C`; returns `C + k` for every int `k`
with `-C < k <= 0` and fails for `k <= -C`; and fails for any value of any
other type. -/
theorem parse_num_proc_correct (C : Nat) (hc : 0 < C) :
    parse_num_proc C (.pyStr "all") = .ok C ∧
    (∀ q : ℚ, 0 < q → q ≤ 1 → parse_num_proc C (.pyFloat q) = .ok ⌊q * C⌋) ∧
    (∀ q : ℚ, ¬(0 < q ∧ q ≤ 1) →
      parse_num_proc C (.pyFloat q) = .error "num_proc (float) out of range (0,1]") ∧
    (∀ k : Int, 0 < k → k ≤ (C : Int) → parse_num_proc C (.pyInt k) = .ok k) ∧
    (∀ k : Int, (C : Int) < k →
      parse_num_proc C (.pyInt k) =
        .error "num_proc (positive integer) must not be larger than the number of available cores") ∧
    (∀ k : Int, -(C : Int) < k → k ≤ 0 → parse_num_proc C (.pyInt k) = .ok ((C : Int) + k)) ∧
    (∀ k : Int, k ≤ -(C : Int) →
      parse_num_proc C (.pyInt k) =
        .error "num_proc (negative integer) must not be smaller than minus the number of available cores") ∧
    parse_num_proc C .pyOther = .error "num_proc is of invalid type" := by
  refine ⟨by simp [parse_num_proc], ?_, ?_, ?_, ?_, ?_, ?_, rfl⟩
  · intro q h1 h2
    have hq : 0 ≤ q * (C : ℚ) := mul_nonneg h1.le (by positivity)
    simp [parse_num_proc, h1, h2, py_int_of_float, hq]
  · intro q hq
    simp only [parse_num_proc]
    rw [if_neg hq]
  · intro k h1 h2
    simp [parse_num_proc, h1, h2]
  · intro k hk
    have h1 : (0 : Int) < k := lt_of_le_of_lt (by exact_mod_cast Nat.zero_le C) hk
    simp [parse_num_proc, h1, not_le.mpr hk]
  · intro k h1 h2
    simp [parse_num_proc, not_lt.mpr h2, h1]
  · intro k hk
    have h2 : ¬(0 : Int) < k := by
      have : (0 : Int) ≤ C := by exact_mod_cast Nat.zero_le C
      omega
    simp [parse_num_proc, h2, not_lt.mpr hk]

/-- Witness for C2 at `C = 4`, exercising the concrete cases of the claim:
`"all" -> 4`, `0.5 -> 2`, `1.1 -> BadCall`, `1 -> 1`, `5 -> BadCall`,
`-1 -> 3`, `-4 -> BadCall`. -/
theorem parse_num_proc_correct_witness :
    0 < 4 ∧
    parse_num_proc 4 (.pyStr "all") = .ok 4 ∧
    parse_num_proc 4 (.pyFloat (1 / 2)) = .ok 2 ∧
    parse_num_proc 4 (.pyFloat (11 / 10)) =
      .error "num_proc (float) out of range (0,1]" ∧
    parse_num_proc 4 (.pyInt 1) = .ok 1 ∧
    parse_num_proc 4 (.pyInt 5) =
      .error "num_proc (positive integer) must not be larger than the number of available cores" ∧
    parse_num_proc 4 (.pyInt (-1)) = .ok 3 ∧
    parse_num_proc 4 (.pyInt (-4)) =
      .error "num_proc (negative integer) must not be smaller than minus the number of available cores" := by
  have h := parse_num_proc_correct 4 (by decide)
  refine ⟨by decide, h.1, ?_, ?_, ?_, ?_, ?_, ?_⟩
  · have h5 := h.2.1 (1 / 2) (by norm_num) (by norm_num)
    have hval : ((1 : ℚ) / 2) * ((4 : Nat) : ℚ) = 2 := by norm_num
    rw [hval] at h5
    simpa using h5
  · exact h.2.2.1 (11 / 10) (by norm_num)
  · exact h.2.2.2.1 1 (by decide) (by decide)
  · exact h.2.2.2.2.1 5 (by decide)
  · have := h.2.2.2.2.2.1 (-1) (by decide) (by decide)
    simpa using this
  · exact h.2.2.2.2.2.2.1 (-4) (by decide)

/-- C7: in sync mode, `_cache_flag = 'has_key'` returns whether a cache entry
exists and never invokes the user function; `_cache_flag = 'cache_only'`
returns the cached value when an entry exists and fails with `Missing`
(`KeyError`) when it does not, likewise never invoking the user function
(the invocation counter stays 0). -/
theorem sync_probe_modes {V : Type} (r : V) (f_name : String) (write_ok : Bool) (fs : FS V) :
    cache_call r f_name (some .has_key) write_ok fs =
      (.ok (.bool (fs_get fs f_name).isSome), fs, 0) ∧
    (∀ v, fs_get fs f_name = some v →
      cache_call r f_name (some .cache_only) write_ok fs = (.ok (.val v), fs, 0)) ∧
    (fs_get fs f_name = none →
      cache_call r f_name (some .cache_only) write_ok fs = (.error .keyError, fs, 0)) := by
  refine ⟨by simp [cache_call], fun v hv => ?_, fun hn => ?_⟩
  · simp [cache_call, hv]
  · simp [cache_call, hn]

/-- Witness for C7 with the one-entry filesystem `[("p", 5)]`. -/
theorem sync_probe_modes_witness :
    cache_call (V := Nat) 7 "p" (some .has_key) true [("p", 5)] =
      (.ok (.bool true), [("p", 5)], 0) ∧
    (fs_get (V := Nat) [("p", 5)] "p" = some 5 ∧
      cache_call (V := Nat) 7 "p" (some .cache_only) true [("p", 5)] =
        (.ok (.val 5), [("p", 5)], 0)) ∧
    (fs_get (V := Nat) [("p", 5)] "q" = none ∧
      cache_call (V := Nat) 7 "q" (some .cache_only) true [("p", 5)] =
        (.error .keyError, [("p", 5)], 0)) := by
  refine ⟨?_, ⟨by decide, ?_⟩, ⟨by decide, ?_⟩⟩
  · have h := (sync_probe_modes (V := Nat) 7 "p" true [("p", 5)]).1
    simpa using h
  · exact (sync_probe_modes (V := Nat) 7 "p" true [("p", 5)]).2.1 5 (by decide)
  · exact (sync_probe_modes (V := Nat) 7 "q" true [("p", 5)]).2.2 (by decide)

/-- C9: idempotence in sync default mode: a first call computes the value,
stores it (one user-function invocation), and a second call with the same
arguments returns the stored value read from disk without invoking the user
function again (invocation count 0, filesystem unchanged). -/
theorem sync_idempotent {V : Type} (r : V) (f_name : String) (fs : FS V)
    (hnone : fs_get fs f_name = none) :
    cache_call r f_name none true fs = (.ok (.val r), fs_set fs f_name r, 1) ∧
    cache_call r f_name none true (fs_set fs f_name r) =
      (.ok (.val r), fs_set fs f_name r, 0) := by
  constructor
  · simp [cache_call, hnone, write_item]
  · simp [cache_call, fs_get_set, write_item]

/-- Witness for C9 with the empty filesystem and value 9 (the spec example
`square(3) = 9`). -/
theorem sync_idempotent_witness :
    fs_get (V := Nat) [] "p" = none ∧
    cache_call (V := Nat) 9 "p" none true [] = (.ok (.val 9), [("p", 9)], 1) ∧
    cache_call (V := Nat) 9 "p" none true [("p", 9)] = (.ok (.val 9), [("p", 9)], 0) := by
  have h := sync_idempotent (V := Nat) 9 "p" [] (by decide)
  refine ⟨by decide, ?_, ?_⟩
  · simpa [fs_set] using h.1
  · simpa [fs_set] using h.2

/-- C4 counterexample: with an injected write failure after a successful
computation, the sync call raises (`IoError`); the computed value 7 is *not*
returned to the caller, contradicting the claim that the value is still
returned. -/
theorem sync_write_failure_counterexample :
    cache_call (V := Nat) 7 "p" none false [] = (.error .ioError, [], 1) ∧
    (cache_call (V := Nat) 7 "p" none false []).1 ≠ .ok (.val 7) := by
  constructor
  · rfl
  · intro hcontra
    simp [cache_call, write_item, fs_get, fs_remove] at hcontra

/-- C4 (amended): if, in sync mode, the user function returns successfully
(it is invoked exactly once) but writing its value to the cache file fails,
then the wrapper removes the incompletely written file — no file exists at
the target path afterwards — and surfaces `IoError`; the computed value is
not returned, the error propagates to the caller instead. -/
theorem sync_write_failure_cleanup {V : Type} (r : V) (f_name : String) (fs : FS V) :
    (fs_get fs f_name = none →
      cache_call r f_name none false fs = (.error .ioError, fs_remove fs f_name, 1)) ∧
    cache_call r f_name (some .update) false fs = (.error .ioError, fs_remove fs f_name, 1) ∧
    fs_get (fs_remove fs f_name) f_name = none := by
  refine ⟨fun hn => ?_, ?_, fs_get_remove fs f_name⟩
  · simp [cache_call, hn, write_item]
  · simp [cache_call, write_item]

/-- Witness for C4 (amended) on the empty filesystem. -/
theorem sync_write_failure_cleanup_witness :
    (fs_get (V := Nat) [] "p" = none ∧
      cache_call (V := Nat) 7 "p" none false [] = (.error .ioError, fs_remove [] "p", 1)) ∧
    cache_call (V := Nat) 7 "p" (some .update) false [] =
      (.error .ioError, fs_remove [] "p", 1) ∧
    fs_get (fs_remove (V := Nat) [] "p") "p" = none := by
  have h := sync_write_failure_cleanup (V := Nat) 7 "p" []
  exact ⟨⟨by decide, h.1 (by decide)⟩, h.2.1, h.2.2⟩

theorem bind_names {V : Type} :
    ∀ (sig : List (PyParam V)) (args : List V) (kwargs : List (String × V))
      (m : List (String × V)),
      bind_apply_defaults sig args kwargs = .ok m →
      m.map Prod.fst = sig.map PyParam.name := by
  intro sig
  induction sig with
  | nil =>
    intro args kwargs m h
    cases args with
    | nil =>
      cases kwargs with
      | nil =>
        simp only [bind_apply_defaults] at h
        cases h
        simp
      | cons kv rest => simp [bind_apply_defaults] at h
    | cons a rest => simp [bind_apply_defaults] at h
  | cons p ps ih =>
    intro args kwargs m h
    cases args with
    | cons a rest =>
      simp only [bind_apply_defaults] at h
      by_cases hk : (kwargs.lookup p.name).isSome
      · rw [if_pos hk] at h
        simp at h
      · rw [if_neg hk] at h
        cases hb : bind_apply_defaults ps rest kwargs with
        | error e => rw [hb] at h; simp [Except.map] at h
        | ok m0 =>
          rw [hb] at h
          simp only [Except.map] at h
          cases h
          simp [ih rest kwargs m0 hb]
    | nil =>
      simp only [bind_apply_defaults] at h
      cases hl : kwargs.lookup p.name with
      | some v =>
        rw [hl] at h
        cases hb : bind_apply_defaults ps [] (kwargs.filter (fun kv => kv.1 != p.name)) with
        | error e => rw [hb] at h; simp [Except.map] at h
        | ok m0 =>
          rw [hb] at h
          simp only [Except.map] at h
          cases h
          simp [ih [] _ m0 hb]
      | none =>
        rw [hl] at h
        cases hd : p.default with
        | some d =>
          rw [hd] at h
          cases hb : bind_apply_defaults ps [] kwargs with
          | error e => rw [hb] at h; simp [Except.map] at h
          | ok m0 =>
            rw [hb] at h
            simp only [Except.map] at h
            cases h
            simp [ih [] kwargs m0 hb]
        | none => rw [hd] at h; simp at h

/-- C3: for every call accepted by the signature, the fingerprint computed by
the cache wrapper (`param_hash_bytes`) is SHA-256 of the canonical
serialization of the bound named-argument mapping with defaults materialized,
emitted as (name, value) pairs sorted by parameter name — and it agrees with
the spec-side definition, with the hash used by the pool-mode wrapper, and
the bound mapping covers exactly the declared parameters in declaration
order (defaults materialized).  `sha` and `ser` stand for the external
SHA-256 digest and the canonical pair-sequence encoder. -/
theorem fingerprint_correct {V : Type} (sha : List Nat → List Nat)
    (ser : List (String × V) → List Nat) (sig : List (PyParam V))
    (args : List V) (kwargs : List (String × V)) (m : List (String × V))
    (hbind : bind_apply_defaults sig args kwargs = .ok m) :
    param_hash_bytes sha ser sig args kwargs = .ok (sha (ser (sort_by_name m))) ∧
    fingerprint_spec sha ser sig args kwargs = .ok (sha (ser (sort_by_name m))) ∧
    mppfc_arg_hash sha ser sig args kwargs = .ok (sha (ser (sort_by_name m))) ∧
    m.map Prod.fst = sig.map PyParam.name := by
  refine ⟨?_, ?_, ?_, bind_names sig args kwargs m hbind⟩ <;>
    simp [param_hash_bytes, fingerprint_spec, mppfc_arg_hash, binfootprint_dump_mapping,
      hbind, Except.map]

/-- Witness for C3: a two-parameter signature `(b, a=5)` called with the
single positional argument 7; the mapping binds `b` to 7 and materializes the
default `a = 5`, and the serialized pairs are sorted by name (`a` before
`b`). -/
theorem fingerprint_correct_witness :
    bind_apply_defaults [⟨"b", none⟩, ⟨"a", some 5⟩] [7] ([] : List (String × Nat)) =
      .ok [("b", 7), ("a", 5)] ∧
    param_hash_bytes (fun l => l) (fun m => m.map Prod.snd)
      [⟨"b", none⟩, ⟨"a", some 5⟩] [7] ([] : List (String × Nat)) = .ok [5, 7] ∧
    fingerprint_spec (fun l => l) (fun m => m.map Prod.snd)
      [⟨"b", none⟩, ⟨"a", some 5⟩] [7] ([] : List (String × Nat)) = .ok [5, 7] ∧
    [("b", 7), ("a", 5)].map Prod.fst =
      [(⟨"b", none⟩ : PyParam Nat), ⟨"a", some 5⟩].map PyParam.name := by
  have h := fingerprint_correct (V := Nat) (fun l => l) (fun m => m.map Prod.snd)
    [⟨"b", none⟩, ⟨"a", some 5⟩] [7] [] [("b", 7), ("a", 5)] (by rfl)
  exact ⟨by rfl, h.1.trans (by rfl), h.2.1.trans (by rfl), h.2.2.2⟩

/-! ### Helper lemmas on the pool model -/

theorem mp_call_pool_miss {V : Type} (r : V) (write_ok : Bool) (f_name h : String)
    (ba : List (String × V)) (s : PoolState V)
    (hmp : s.mp = true) (hfs : fs_get s.fs f_name = none) :
    mp_call r write_ok none f_name h ba s =
      match s.errs.lookup h with
      | some (ex, tb) => (.error (.execFailure ex tb), s)
      | none =>
        if h ∈ s.pending then (.ok none, s)
        else (.ok none, { s with q := s.q ++ [(ba, h)], cnt := s.cnt + 1,
                                 pending := h :: s.pending }) := by
  simp [mp_call, hmp, cache_call, hfs]

theorem q_count_enqueue {V : Type} (s : PoolState V) (ba : List (String × V)) (h : String) :
    q_count { s with q := s.q ++ [(ba, h)], cnt := s.cnt + 1, pending := h :: s.pending } h
      = q_count s h + 1 := by
  simp [q_count, List.filter_append]

theorem mp_step_inv {V : Type} (r : V) (write_ok : Bool) (f_name h : String)
    (ba : List (String × V)) (s : PoolState V) (hmp : s.mp = true)
    (hq : q_count s h ≤ 1) (hp : q_count s h = 1 → h ∈ s.pending) :
    (mp_call r write_ok none f_name h ba s).2.mp = true ∧
    q_count (mp_call r write_ok none f_name h ba s).2 h ≤ 1 ∧
    (q_count (mp_call r write_ok none f_name h ba s).2 h = 1 →
      h ∈ (mp_call r write_ok none f_name h ba s).2.pending) := by
  cases hfs : fs_get s.fs f_name with
  | some v =>
    have hcall : mp_call r write_ok none f_name h ba s = (.ok (some (.val v)), s) := by
      simp [mp_call, hmp, cache_call, hfs]
    rw [hcall]
    exact ⟨hmp, hq, hp⟩
  | none =>
    rw [mp_call_pool_miss r write_ok f_name h ba s hmp hfs]
    cases herr : s.errs.lookup h with
    | some e =>
      obtain ⟨ex, tb⟩ := e
      simp only
      exact ⟨hmp, hq, hp⟩
    | none =>
      simp only
      by_cases hin : h ∈ s.pending
      · simp only [if_pos hin]
        exact ⟨hmp, hq, hp⟩
      · simp only [if_neg hin]
        have hne : q_count s h ≠ 1 := fun h1 => hin (hp h1)
        have hc0 : q_count s h = 0 := by omega
        refine ⟨hmp, ?_, fun _ => ?_⟩
        · rw [q_count_enqueue, hc0]
        · simp

theorem call_iterate_inv {V : Type} (r : V) (write_ok : Bool) (f_name h : String)
    (ba : List (String × V)) :
    ∀ (n : Nat) (s : PoolState V), s.mp = true → q_count s h ≤ 1 →
      (q_count s h = 1 → h ∈ s.pending) →
      (call_iterate r write_ok f_name h ba n s).mp = true ∧
      q_count (call_iterate r write_ok f_name h ba n s) h ≤ 1 ∧
      (q_count (call_iterate r write_ok f_name h ba n s) h = 1 →
        h ∈ (call_iterate r write_ok f_name h ba n s).pending) := by
  intro n
  induction n with
  | zero =>
    intro s h1 h2 h3
    exact ⟨h1, h2, h3⟩
  | succ k ih =>
    intro s h1 h2 h3
    rw [call_iterate]
    obtain ⟨a1, a2, a3⟩ := mp_step_inv r write_ok f_name h ba s h1 h2 h3
    exact ih _ a1 a2 a3

/-- C5: within one epoch a hash `h` is admitted to the waiting queue at most
once.  If `h` is already in the pending set the pool-mode call returns
`pending` (`None`) without enqueuing and leaves the state unchanged; only
when `h` is neither in the failure map nor in the pending set (and not
cached) is `h` inserted into the pending set, the entry pushed onto the FIFO
and the issued counter incremented; and after `n` calls with the same
arguments starting from a state whose queue holds no entry for `h`, the
queue holds at most one entry for `h`. -/
theorem enqueue_at_most_once {V : Type} (r : V) (write_ok : Bool) (f_name h : String)
    (ba : List (String × V)) :
    (∀ s : PoolState V, s.mp = true → fs_get s.fs f_name = none →
      s.errs.lookup h = none → h ∈ s.pending →
      mp_call r write_ok none f_name h ba s = (.ok none, s)) ∧
    (∀ s : PoolState V, s.mp = true → fs_get s.fs f_name = none →
      s.errs.lookup h = none → h ∉ s.pending →
      mp_call r write_ok none f_name h ba s =
        (.ok none, { s with q := s.q ++ [(ba, h)], cnt := s.cnt + 1,
                            pending := h :: s.pending })) ∧
    (∀ (n : Nat) (s : PoolState V), s.mp = true → q_count s h = 0 →
      q_count (call_iterate r write_ok f_name h ba n s) h ≤ 1) := by
  refine ⟨?_, ?_, ?_⟩
  · intro s hmp hfs herr hin
    rw [mp_call_pool_miss r write_ok f_name h ba s hmp hfs]
    simp [herr, hin]
  · intro s hmp hfs herr hin
    rw [mp_call_pool_miss r write_ok f_name h ba s hmp hfs]
    simp [herr, hin]
  · intro n s hmp h0
    exact (call_iterate_inv r write_ok f_name h ba n s hmp (by omega)
      (fun h1 => absurd h1 (by omega))).2.1

/-- Witness for C5: from the fresh pool state, the first call enqueues the
entry once, and after 3 calls with the same arguments the queue holds at most
one entry for the hash. -/
theorem enqueue_at_most_once_witness :
    ((⟨true, false, [], [], 0, [], [], []⟩ : PoolState Nat).mp = true ∧
      fs_get (⟨true, false, [], [], 0, [], [], []⟩ : PoolState Nat).fs "p" = none ∧
      (⟨true, false, [], [], 0, [], [], []⟩ : PoolState Nat).errs.lookup "h" = none ∧
      "h" ∉ (⟨true, false, [], [], 0, [], [], []⟩ : PoolState Nat).pending) ∧
    mp_call (V := Nat) 7 true none "p" "h" [("x", 1)]
        ⟨true, false, [], [], 0, [], [], []⟩ =
      (.ok none, ⟨true, false, ["h"], [([("x", 1)], "h")], 1, [], [], []⟩) ∧
    q_count (call_iterate (V := Nat) 7 true "p" "h" [("x", 1)] 3
        ⟨true, false, [], [], 0, [], [], []⟩) "h" ≤ 1 := by
  have h := enqueue_at_most_once (V := Nat) 7 true "p" "h" [("x", 1)]
  refine ⟨⟨rfl, rfl, rfl, by decide⟩, ?_, ?_⟩
  · exact (h.2.1 ⟨true, false, [], [], 0, [], [], []⟩ rfl rfl rfl (by decide)).trans (by rfl)
  · exact h.2.2 3 ⟨true, false, [], [], 0, [], [], []⟩ rfl rfl

/-- C6: when the user function raises inside a worker, the worker stores the
exception together with its formatted stack trace in the failure map keyed by
the argument hash (the cache stays untouched), and every subsequent pool-mode
call with arguments hashing to that hash raises `ExecFailure`
(`ErroneousFunctionCall`) wrapping the original exception and preserving the
trace — the call leaves the state unchanged, so all later calls raise as
well. -/
theorem worker_failure_propagation {V : Type} (r : V) (write_ok : Bool)
    (f_name h ex tb : String) (ba : List (String × V))
    (qrest : List (List (String × V) × String)) (s : PoolState V)
    (hmp : s.mp = true) (hq : s.q = (ba, h) :: qrest)
    (hfs : fs_get s.fs f_name = none) :
    (worker_step (.exc ex tb) f_name s).errs.lookup h = some (ex, tb) ∧
    (worker_step (.exc ex tb) f_name s).fs = s.fs ∧
    mp_call r write_ok none f_name h ba (worker_step (.exc ex tb) f_name s) =
      (.error (.execFailure ex tb), worker_step (.exc ex tb) f_name s) ∧
    (∀ n : Nat, call_iterate r write_ok f_name h ba n (worker_step (.exc ex tb) f_name s)
      = worker_step (.exc ex tb) f_name s) := by
  have hws : worker_step (V := V) (.exc ex tb) f_name s =
      { s with q := qrest, errs := (h, ex, tb) :: s.errs,
               pending := s.pending.filter (fun x => x != h) } := by
    simp [worker_step, hq]
  have h1 : (worker_step (V := V) (.exc ex tb) f_name s).errs.lookup h = some (ex, tb) := by
    rw [hws]
    simp [List.lookup]
  have h2 : (worker_step (V := V) (.exc ex tb) f_name s).fs = s.fs := by
    rw [hws]
  have key : mp_call r write_ok none f_name h ba (worker_step (.exc ex tb) f_name s) =
      (.error (.execFailure ex tb), worker_step (.exc ex tb) f_name s) := by
    rw [hws]
    simp [mp_call, hmp, cache_call, hfs, List.lookup]
  refine ⟨h1, h2, key, ?_⟩
  intro n
  induction n with
  | zero => rfl
  | succ k ih =>
    rw [call_iterate, key]
    exact ih

/-- Witness for C6: a worker pops the single queue entry, the user function
raises `RuntimeError` with trace `Traceback`, and afterwards pool-mode calls
raise `ExecFailure` wrapping them (also after 2 further calls). -/
theorem worker_failure_propagation_witness :
    ((⟨true, false, ["h"], [([("x", 1)], "h")], 1, [], [], []⟩ : PoolState Nat).mp = true ∧
      (⟨true, false, ["h"], [([("x", 1)], "h")], 1, [], [], []⟩ : PoolState Nat).q
        = [([("x", 1)], "h")] ∧
      fs_get (⟨true, false, ["h"], [([("x", 1)], "h")], 1, [], [], []⟩ : PoolState Nat).fs "p"
        = none) ∧
    (worker_step (.exc "RuntimeError" "Traceback") "p"
        (⟨true, false, ["h"], [([("x", 1)], "h")], 1, [], [], []⟩ : PoolState Nat)).errs.lookup "h"
      = some ("RuntimeError", "Traceback") ∧
    mp_call (V := Nat) 7 true none "p" "h" [("x", 1)]
        (worker_step (.exc "RuntimeError" "Traceback") "p"
          ⟨true, false, ["h"], [([("x", 1)], "h")], 1, [], [], []⟩) =
      (.error (.execFailure "RuntimeError" "Traceback"),
        worker_step (.exc "RuntimeError" "Traceback") "p"
          ⟨true, false, ["h"], [([("x", 1)], "h")], 1, [], [], []⟩) ∧
    call_iterate (V := Nat) 7 true "p" "h" [("x", 1)] 2
        (worker_step (.exc "RuntimeError" "Traceback") "p"
          ⟨true, false, ["h"], [([("x", 1)], "h")], 1, [], [], []⟩)
      = worker_step (.exc "RuntimeError" "Traceback") "p"
          ⟨true, false, ["h"], [([("x", 1)], "h")], 1, [], [], []⟩ := by
  have h := worker_failure_propagation (V := Nat) 7 true "p" "h" "RuntimeError" "Traceback"
    [("x", 1)] [] ⟨true, false, ["h"], [([("x", 1)], "h")], 1, [], [], []⟩ rfl rfl rfl
  exact ⟨⟨rfl, rfl, rfl⟩, h.1, h.2.2.1, h.2.2.2 2⟩

/-- C10: calling the wrapper with the reserved keyword `_cache_flag` while the
worker pool is active invokes `terminate()` before raising `BadCall`
(`ValueError`): the stop flag is set, the terminate signal is delivered to
every worker, multiprocessing is left inactive, and the pool state is not
left unchanged. -/
theorem cache_flag_terminates_pool {V : Type} (r : V) (write_ok : Bool)
    (fv : Option CacheFlag) (f_name h : String) (ba : List (String × V))
    (s : PoolState V) (hmp : s.mp = true) :
    mp_call r write_ok (some fv) f_name h ba s = (.error .badCall, pool_terminate s) ∧
    pool_terminate s = pool_join (deliver_terminate s) ∧
    (deliver_terminate s).procs = s.procs.map (fun _ => true) ∧
    (pool_terminate s).stop = true ∧
    (pool_terminate s).mp = false ∧
    (pool_terminate s).procs = [] ∧
    pool_terminate s ≠ s := by
  refine ⟨?_, rfl, rfl, rfl, rfl, rfl, ?_⟩
  · simp [mp_call, hmp]
  · intro hcontra
    have hmp2 : (pool_terminate s).mp = s.mp := congrArg PoolState.mp hcontra
    rw [hmp] at hmp2
    simp [pool_terminate, pool_join, deliver_terminate] at hmp2

/-- Witness for C10: an active pool with two workers; the call with
`_cache_flag=None` present raises `BadCall` after terminating both
workers. -/
theorem cache_flag_terminates_pool_witness :
    (⟨true, false, [], [], 0, [], [], [false, false]⟩ : PoolState Nat).mp = true ∧
    mp_call (V := Nat) 7 true (some none) "p" "h" [("x", 1)]
        ⟨true, false, [], [], 0, [], [], [false, false]⟩ =
      (.error .badCall,
        pool_terminate (⟨true, false, [], [], 0, [], [], [false, false]⟩ : PoolState Nat)) ∧
    (deliver_terminate (⟨true, false, [], [], 0, [], [], [false, false]⟩ : PoolState Nat)).procs
      = [true, true] ∧
    (pool_terminate (⟨true, false, [], [], 0, [], [], [false, false]⟩ : PoolState Nat)).stop
      = true ∧
    (pool_terminate (⟨true, false, [], [], 0, [], [], [false, false]⟩ : PoolState Nat)).mp
      = false ∧
    (pool_terminate (⟨true, false, [], [], 0, [], [], [false, false]⟩ : PoolState Nat)).procs
      = [] ∧
    pool_terminate (⟨true, false, [], [], 0, [], [], [false, false]⟩ : PoolState Nat)
      ≠ ⟨true, false, [], [], 0, [], [], [false, false]⟩ := by
  have h := cache_flag_terminates_pool (V := Nat) 7 true none "p" "h" [("x", 1)]
    ⟨true, false, [], [], 0, [], [], [false, false]⟩ rfl
  exact ⟨rfl, h.1, (h.2.2.1).trans (by rfl), h.2.2.2.1, h.2.2.2.2.1,
    h.2.2.2.2.2.1, h.2.2.2.2.2.2⟩

end Mppfc
